import Mathlib

/-!
Verification of the Genetic-Algorithm RSPKLU repository: a shallow embedding
of the chromosome encoding helpers (`utils.py`), the battery-simulating
fitness evaluator (`ga/evaluator.py`) and the route repair operator
(`repair.py`), together with theorems settling the frozen claims.

Numbers are modelled by `ℚ` (Python floats used exactly on the inputs at
stake), the `float('inf')` "unreachable" sentinel by `Option.none` on
distance lookups, and a Python exception (e.g. `ZeroDivisionError`) by an
explicit error outcome.  The repair operator's `while` loop can genuinely
fail to terminate, so it is embedded with explicit fuel; `none` for every
fuel amount means divergence.
-/

namespace RSPKLU

/-- Genes of a delimiter-flat chromosome: depot nodes `D i`, charging-station
nodes `S i`, customer nodes `C i` (mirroring the string ids `'D1'`, `'S1'`,
`'C1'` and their `startswith` checks), and the route separator marker `'|'`. -/
inductive Gene where
  | D (i : Nat)
  | S (i : Nat)
  | C (i : Nat)
  | sep
deriving DecidableEq, Repr

/-- `node.startswith('D')` on the node strings of the repository. -/
def Gene.isDepot : Gene → Bool
  | .D _ => true
  | _ => false

/-- `node.startswith('S')` on the node strings of the repository. -/
def Gene.isStation : Gene → Bool
  | .S _ => true
  | _ => false

/-- `node.startswith('C')` on the node strings of the repository. -/
def Gene.isCustomer : Gene → Bool
  | .C _ => true
  | _ => false

/-- A node at which the lookahead loops of `repair.py` and `ga/evaluator.py`
stop: a depot or a charging station. -/
def Gene.isStop (g : Gene) : Bool := g.isStation || g.isDepot

@[simp] theorem Gene.D_ne_S (i j : Nat) : (Gene.D i = Gene.S j) ↔ False :=
  ⟨fun h => Gene.noConfusion h, False.elim⟩

@[simp] theorem Gene.D_ne_C (i j : Nat) : (Gene.D i = Gene.C j) ↔ False :=
  ⟨fun h => Gene.noConfusion h, False.elim⟩

@[simp] theorem Gene.D_ne_sep (i : Nat) : (Gene.D i = Gene.sep) ↔ False :=
  ⟨fun h => Gene.noConfusion h, False.elim⟩

@[simp] theorem Gene.S_ne_D (i j : Nat) : (Gene.S i = Gene.D j) ↔ False :=
  ⟨fun h => Gene.noConfusion h, False.elim⟩

@[simp] theorem Gene.S_ne_C (i j : Nat) : (Gene.S i = Gene.C j) ↔ False :=
  ⟨fun h => Gene.noConfusion h, False.elim⟩

@[simp] theorem Gene.S_ne_sep (i : Nat) : (Gene.S i = Gene.sep) ↔ False :=
  ⟨fun h => Gene.noConfusion h, False.elim⟩

@[simp] theorem Gene.C_ne_D (i j : Nat) : (Gene.C i = Gene.D j) ↔ False :=
  ⟨fun h => Gene.noConfusion h, False.elim⟩

@[simp] theorem Gene.C_ne_S (i j : Nat) : (Gene.C i = Gene.S j) ↔ False :=
  ⟨fun h => Gene.noConfusion h, False.elim⟩

@[simp] theorem Gene.C_ne_sep (i : Nat) : (Gene.C i = Gene.sep) ↔ False :=
  ⟨fun h => Gene.noConfusion h, False.elim⟩

@[simp] theorem Gene.sep_ne_D (i : Nat) : (Gene.sep = Gene.D i) ↔ False :=
  ⟨fun h => Gene.noConfusion h, False.elim⟩

@[simp] theorem Gene.sep_ne_S (i : Nat) : (Gene.sep = Gene.S i) ↔ False :=
  ⟨fun h => Gene.noConfusion h, False.elim⟩

@[simp] theorem Gene.sep_ne_C (i : Nat) : (Gene.sep = Gene.C i) ↔ False :=
  ⟨fun h => Gene.noConfusion h, False.elim⟩

/-- The customer index carried by a customer gene. -/
def Gene.customerId : Gene → Option Nat
  | .C i => some i
  | _ => none

/-- The customer identifiers occurring in a gene sequence, in order. -/
def customersOf (l : List Gene) : List Nat := l.filterMap Gene.customerId

/-- `utils.INFEASIBLE_PENALTY = 1e6`. -/
def INFEASIBLE_PENALTY : ℚ := 1000000

/-- The accumulator loop of `utils.split_routes`: `cur` is the pending
segment; a separator flushes `cur` only when it is non-empty, and the final
pending segment is flushed only when non-empty. -/
def splitGo : List Gene → List Gene → List (List Gene)
  | cur, [] => if cur = [] then [] else [cur]
  | cur, g :: rest =>
    if g = Gene.sep then
      if cur = [] then splitGo [] rest else cur :: splitGo [] rest
    else
      splitGo (cur ++ [g]) rest

/-- `utils.split_routes`: cut a delimiter-flat chromosome at every `'|'`,
dropping empty segments. -/
def split_routes (c : List Gene) : List (List Gene) := splitGo [] c

/-- `utils.join_routes`: concatenate routes with a `'|'` between consecutive
routes. -/
def join_routes : List (List Gene) → List Gene
  | [] => []
  | [r] => r
  | r :: rs => r ++ Gene.sep :: join_routes rs

/-- `utils.get_distance` over a nested (dict-of-dict style) matrix `M`,
with `none` standing for an absent entry (so a `none` result is the
`float('inf')` default): `a == b` short-circuits to `0`, otherwise the
`(a,b)` entry is consulted and then the symmetric `(b,a)` fallback. -/
def get_distance (M : Gene → Gene → Option ℚ) (a b : Gene) : Option ℚ :=
  if a = b then some 0
  else
    match M a b with
    | some d => some d
    | none => M b a

/-- The outcome of the evaluator's route loop: `err` models a raised Python
exception (division by a zero `charging_rate`), `infeasible` the early
`return INFEASIBLE_PENALTY`, and `ok dist time` a completed simulation with
its accumulated travelled distance and charging time. -/
inductive FitRes where
  | err
  | infeasible
  | ok (dist : ℚ) (time : ℚ)
deriving DecidableEq, Repr

/-- The evaluator's lookahead (`ga/evaluator.py` lines 32-41): starting at
node `u`, sum `distance * consumption_rate` over consecutive hops up to and
including the first hop whose destination is a station or a depot; `none`
when a looked-up distance is the unreachable sentinel. -/
def energyToNext (M : Gene → Gene → Option ℚ) (rate : ℚ) :
    Gene → List Gene → Option ℚ
  | _, [] => some 0
  | u, v :: rest =>
    match get_distance M u v with
    | none => none
    | some d =>
      if v.isStop then some (d * rate)
      else
        match energyToNext M rate v rest with
        | none => none
        | some e => some (d * rate + e)

/-- The inner loop of `ga.evaluator.fitness_function` on one route, acting on
the suffix of the route starting at the current node.  Stations charge by the
shortfall toward the next stop, dividing by `charging_rate` (an exception,
`err`, when that rate is zero, exactly as Python's float division raises). -/
def evalRoute (M : Gene → Gene → Option ℚ) (cap crate rate : ℚ) :
    ℚ → List Gene → FitRes
  | _, [] => .ok 0 0
  | _, [_] => .ok 0 0
  | battery, a :: b :: rest =>
    match get_distance M a b with
    | none => .infeasible
    | some dist =>
      let needed := dist * rate
      if a.isStation then
        match energyToNext M rate a (b :: rest) with
        | none => .infeasible
        | some toNext =>
          if crate = 0 then .err
          else
            let required := max 0 (toNext - battery)
            let ctime := required / crate
            let battery1 := if battery + required > cap then cap
                            else battery + required
            if battery1 < needed then .infeasible
            else
              match evalRoute M cap crate rate (battery1 - needed) (b :: rest) with
              | .ok d t => .ok (dist + d) (ctime + t)
              | x => x
      else
        if battery < needed then .infeasible
        else
          match evalRoute M cap crate rate (battery - needed) (b :: rest) with
          | .ok d t => .ok (dist + d) t
          | x => x

/-- The outer loop of `ga.evaluator.fitness_function`: evaluate each route
with a fresh full battery, propagating an early infeasible return or an
exception, and summing distance and charging time otherwise. -/
def evalRoutes (M : Gene → Gene → Option ℚ) (cap crate rate : ℚ) :
    List (List Gene) → FitRes
  | [] => .ok 0 0
  | r :: rs =>
    match evalRoute M cap crate rate cap r with
    | .ok d t =>
      match evalRoutes M cap crate rate rs with
      | .ok d2 t2 => .ok (d + d2) (t + t2)
      | x => x
    | x => x

/-- `ga.evaluator.fitness_function`: `none` models a raised exception,
`some INFEASIBLE_PENALTY` the infeasible early return, and otherwise the
weighted normalized score `w1 * (D/100) + w2 * (C/100)`. -/
def fitness_function (c : List Gene) (M : Gene → Gene → Option ℚ)
    (cap rate crate w1 w2 : ℚ) : Option ℚ :=
  match evalRoutes M cap crate rate (split_routes c) with
  | .err => none
  | .infeasible => some INFEASIBLE_PENALTY
  | .ok d t => some (w1 * (d / 100) + w2 * (t / 100))

/-- The accumulating fold of `repair.find_nearest_reachable_station_fast`:
`best` carries the best station found so far together with its distance
(`none` models Python's initial `best_station = None` / `min_dist = inf`);
a station is a candidate when it is reachable with the current battery, and
it replaces the incumbent only when strictly nearer. -/
def findStationGo (cur : Gene) (dm : Gene → Gene → ℚ) (battery rate : ℚ) :
    List Nat → Option (Gene × ℚ) → Option (Gene × ℚ)
  | [], best => best
  | s :: rest, best =>
    let d := dm cur (Gene.S s)
    let best1 :=
      if battery ≥ d * rate then
        match best with
        | none => some (Gene.S s, d)
        | some (bs, bd) => if d < bd then some (Gene.S s, d) else some (bs, bd)
      else best
    findStationGo cur dm battery rate rest best1

/-- `repair.find_nearest_reachable_station_fast`: the nearest station (by
matrix lookup) reachable with the current battery, `none` when no station is
reachable. -/
def find_nearest_reachable_station_fast (cur : Gene) (stationIds : List Nat)
    (dm : Gene → Gene → ℚ) (battery rate : ℚ) : Option Gene :=
  (findStationGo cur dm battery rate stationIds none).map Prod.fst

/-- `repair.calculate_energy_to_next_stop` on the suffix of the route
starting at the current index: sum consumption over hops until the hop
destination is a depot or a station (inclusive). -/
def calculate_energy_to_next_stop (dm : Gene → Gene → ℚ) (rate : ℚ) :
    List Gene → ℚ
  | [] => 0
  | [_] => 0
  | u :: v :: rest =>
    dm u v * rate +
      (if v.isStop then 0 else calculate_energy_to_next_stop dm rate (v :: rest))

/-- The partial-charging update of `repair.repair_chromosome` (lines 70-73):
at a depot or a station the battery becomes
`min(battery_capacity, max(battery, calculate_energy_to_next_stop(...)))`,
elsewhere it is unchanged.  `s` is the suffix of the original route starting
at the current index `i`. -/
def chargeAtStop (dm : Gene → Gene → ℚ) (cap rate : ℚ) (cur : Gene)
    (battery : ℚ) (s : List Gene) : ℚ :=
  if cur.isDepot || cur.isStation then
    min cap (max battery (calculate_energy_to_next_stop dm rate s))
  else battery

/-- The `while` loop of `repair.repair_chromosome` on one route, with
explicit fuel (the loop need not terminate; `none` means the fuel ran out).
The state is the current node `cur` (which may be an inserted station), the
battery, and the suffix `s` of the *original* route starting at index `i`;
the result is the list of genes the loop appends after `new_route`'s initial
`route[0]`.  If the pending hop is affordable after partial charging it is
taken; otherwise the nearest reachable station is visited without advancing
`i`, and if none is reachable the original next node is forced with the
battery zeroed. -/
def repairGo (dm : Gene → Gene → ℚ) (stationIds : List Nat) (cap rate : ℚ)
    (fuel : Nat) (cur : Gene) (battery : ℚ) (s : List Gene) :
    Option (List Gene) :=
  if fuel = 0 then none
  else
    match s with
    | [] => some []
    | [_] => some []
    | x :: next :: rest =>
      let energyNeeded := dm cur next * rate
      let battery1 := chargeAtStop dm cap rate cur battery (x :: next :: rest)
      if battery1 ≥ energyNeeded then
        (repairGo dm stationIds cap rate (fuel - 1) next (battery1 - energyNeeded)
          (next :: rest)).map (next :: ·)
      else
        match find_nearest_reachable_station_fast cur stationIds dm battery1 rate with
        | some st =>
          (repairGo dm stationIds cap rate (fuel - 1) st (battery1 - dm cur st * rate)
            (x :: next :: rest)).map (st :: ·)
        | none =>
          (repairGo dm stationIds cap rate (fuel - 1) next 0 (next :: rest)).map (next :: ·)
termination_by fuel
decreasing_by all_goals (simp_wf; omega)

theorem repairGo_zero (dm : Gene → Gene → ℚ) (sids : List Nat) (cap rate : ℚ)
    (cur : Gene) (battery : ℚ) (s : List Gene) :
    repairGo dm sids cap rate 0 cur battery s = none := by
  rw [repairGo.eq_def]
  simp

theorem repairGo_nil (dm : Gene → Gene → ℚ) (sids : List Nat) (cap rate : ℚ)
    (fuel : Nat) (cur : Gene) (battery : ℚ) (h : fuel ≠ 0) :
    repairGo dm sids cap rate fuel cur battery [] = some [] := by
  rw [repairGo.eq_def]
  simp [h]

theorem repairGo_single (dm : Gene → Gene → ℚ) (sids : List Nat) (cap rate : ℚ)
    (fuel : Nat) (cur : Gene) (battery : ℚ) (x : Gene) (h : fuel ≠ 0) :
    repairGo dm sids cap rate fuel cur battery [x] = some [] := by
  rw [repairGo.eq_def]
  simp [h]

/-- Step of the repair loop when the (possibly recharged) battery suffices
for the pending hop: travel it and advance `i`. -/
theorem repairGo_advance (dm : Gene → Gene → ℚ) (sids : List Nat)
    (cap rate : ℚ) (fuel : Nat) (cur : Gene) (battery : ℚ)
    (x next : Gene) (rest : List Gene) (h : fuel ≠ 0)
    (hb : chargeAtStop dm cap rate cur battery (x :: next :: rest) ≥ dm cur next * rate) :
    repairGo dm sids cap rate fuel cur battery (x :: next :: rest) =
      (repairGo dm sids cap rate (fuel - 1) next
        (chargeAtStop dm cap rate cur battery (x :: next :: rest) - dm cur next * rate)
        (next :: rest)).map (next :: ·) := by
  rw [repairGo.eq_def]
  simp [h, hb]

/-- Step of the repair loop when the battery is insufficient but a charging
station is reachable: move to it without advancing `i`. -/
theorem repairGo_toStation (dm : Gene → Gene → ℚ) (sids : List Nat)
    (cap rate : ℚ) (fuel : Nat) (cur : Gene) (battery : ℚ)
    (x next : Gene) (rest : List Gene) (st : Gene) (h : fuel ≠ 0)
    (hb : ¬ chargeAtStop dm cap rate cur battery (x :: next :: rest) ≥ dm cur next * rate)
    (hf : find_nearest_reachable_station_fast cur sids dm
      (chargeAtStop dm cap rate cur battery (x :: next :: rest)) rate = some st) :
    repairGo dm sids cap rate fuel cur battery (x :: next :: rest) =
      (repairGo dm sids cap rate (fuel - 1) st
        (chargeAtStop dm cap rate cur battery (x :: next :: rest) - dm cur st * rate)
        (x :: next :: rest)).map (st :: ·) := by
  rw [repairGo.eq_def]
  simp [h, hb, hf]

/-- Step of the repair loop at a dead end: the battery is insufficient for
the pending hop and no charging station is reachable, so the original next
node is forced, the battery is zeroed, and `i` advances. -/
theorem repairGo_deadEnd (dm : Gene → Gene → ℚ) (sids : List Nat)
    (cap rate : ℚ) (fuel : Nat) (cur : Gene) (battery : ℚ)
    (x next : Gene) (rest : List Gene) (h : fuel ≠ 0)
    (hb : ¬ chargeAtStop dm cap rate cur battery (x :: next :: rest) ≥ dm cur next * rate)
    (hf : find_nearest_reachable_station_fast cur sids dm
      (chargeAtStop dm cap rate cur battery (x :: next :: rest)) rate = none) :
    repairGo dm sids cap rate fuel cur battery (x :: next :: rest) =
      (repairGo dm sids cap rate (fuel - 1) next 0 (next :: rest)).map (next :: ·) := by
  rw [repairGo.eq_def]
  simp [h, hb, hf]

/-- The per-route loop of `repair.repair_chromosome`: empty routes are
skipped (`if not route: continue`); every other route is repaired starting
from its first node with a full battery. -/
def repairRoutes (dm : Gene → Gene → ℚ) (stationIds : List Nat)
    (cap rate : ℚ) (fuel : Nat) : List (List Gene) → Option (List (List Gene))
  | [] => some []
  | [] :: rs => repairRoutes dm stationIds cap rate fuel rs
  | (x :: suf) :: rs =>
    match repairGo dm stationIds cap rate fuel x cap (x :: suf) with
    | none => none
    | some body =>
      match repairRoutes dm stationIds cap rate fuel rs with
      | none => none
      | some others => some ((x :: body) :: others)

/-- The final clean-up of `repair.repair_chromosome`: every repaired route
is followed by a `'|'` and the trailing `'|'` is popped. -/
def popTrailingSep (l : List Gene) : List Gene :=
  if l.getLast? = some Gene.sep then l.dropLast else l

/-- `repair.repair_chromosome` with explicit fuel for its inner `while`
loop: parse the chromosome into routes (identically to
`utils.split_routes`), repair each route, and rejoin with separators.
`none` means the fuel was exhausted (the underlying loop diverges when no
fuel bound suffices). -/
def repair_chromosome (fuel : Nat) (c : List Gene) (dm : Gene → Gene → ℚ)
    (stationIds : List Nat) (cap rate : ℚ) : Option (List Gene) :=
  match repairRoutes dm stationIds cap rate fuel (split_routes c) with
  | none => none
  | some nrs => some (popTrailingSep ((nrs.map (· ++ [Gene.sep])).flatten))

/-! ### Concrete instances used by the claims -/

/-- The station-insertion scenario of the spec: `distance(D1,C1)=60`,
`distance(D1,S1)=10`, `distance(S1,C1)=50`, symmetric, all self-distances
and unnamed pairs `0`. -/
def dm2 : Gene → Gene → ℚ
  | .D 1, .C 1 => 60
  | .C 1, .D 1 => 60
  | .D 1, .S 1 => 10
  | .S 1, .D 1 => 10
  | .S 1, .C 1 => 50
  | .C 1, .S 1 => 50
  | _, _ => 0

/-- `dm2` as a nested-dict style matrix for `get_distance` (diagonal absent,
as `build_distance_matrix` stores it separately and `get_distance`
short-circuits on `a == b` anyway). -/
def M2 : Gene → Gene → Option ℚ := fun a b =>
  if a = b then none else some (dm2 a b)

/-- A distance matrix on which the repair loop diverges with
`battery_capacity = 10`: the hop `D1 → C1` costs `100`, station `S1` is
`5` away from `D1` and `100` away from `C1`, and `S1` is at distance `0`
from itself, hence always "reachable". -/
def dmBad : Gene → Gene → ℚ
  | .D 1, .C 1 => 100
  | .C 1, .D 1 => 100
  | .D 1, .S 1 => 5
  | .S 1, .D 1 => 5
  | .S 1, .C 1 => 100
  | .C 1, .S 1 => 100
  | _, _ => 0

/-- The feasible round-trip scenario of the spec: `distance(D1,C1)=2`. -/
def dm9 : Gene → Gene → ℚ
  | .D 1, .C 1 => 2
  | .C 1, .D 1 => 2
  | _, _ => 0

/-- `dm9` as a nested-dict style matrix. -/
def M9 : Gene → Gene → Option ℚ := fun a b =>
  if a = b then none else some (dm9 a b)

/-- A scenario where the station `S1` must top up: `D1 → S1` costs `60`
(leaving `40`), and from `S1` the stretch `S1 → C1 → D1` costs `80 + 10`,
so the shortfall is `50`. -/
def dm6 : Gene → Gene → ℚ
  | .D 1, .S 1 => 60
  | .S 1, .D 1 => 60
  | .S 1, .C 1 => 80
  | .C 1, .S 1 => 80
  | .C 1, .D 1 => 10
  | .D 1, .C 1 => 10
  | _, _ => 0

/-- `dm6` as a nested-dict style matrix. -/
def M6 : Gene → Gene → Option ℚ := fun a b =>
  if a = b then none else some (dm6 a b)

/-! ### C1: repair termination and dead-end semantics -/

/-- On `dmBad` with capacity `10`, once the loop is at `S1` with battery
`10` facing the suffix `[D1, C1]`, every iteration selects `S1` itself
(distance `0`, always reachable) and returns to the same state: the loop
never terminates, whatever the fuel. -/
theorem repairGo_dmBad_loops (fuel : Nat) :
    repairGo dmBad [1] 10 1 fuel (Gene.S 1) 10 [Gene.D 1, Gene.C 1] = none := by
  induction fuel with
  | zero => exact repairGo_zero dmBad [1] 10 1 (Gene.S 1) 10 [Gene.D 1, Gene.C 1]
  | succ n ih =>
    rw [repairGo_toStation dmBad [1] 10 1 (n + 1) (Gene.S 1) 10
      (Gene.D 1) (Gene.C 1) [] (Gene.S 1) (by omega)
      (by norm_num [chargeAtStop, dmBad, calculate_energy_to_next_stop,
        Gene.isStation, Gene.isDepot, Gene.isStop, min_def, max_def])
      (by norm_num [find_nearest_reachable_station_fast, findStationGo,
        chargeAtStop, dmBad, calculate_energy_to_next_stop,
        Gene.isStation, Gene.isDepot, Gene.isStop, min_def, max_def])]
    rw [show chargeAtStop dmBad 10 1 (Gene.S 1) 10 [Gene.D 1, Gene.C 1] -
        dmBad (Gene.S 1) (Gene.S 1) * 1 = 10 from by
      norm_num [chargeAtStop, dmBad, calculate_energy_to_next_stop,
        Gene.isStation, Gene.isDepot, Gene.isStop, min_def, max_def]]
    rw [show n + 1 - 1 = n from rfl, ih]
    rfl

/-- Arriving at `S1` with battery `5` recharges to `10` and enters the same
endless loop. -/
theorem repairGo_dmBad_loops5 (fuel : Nat) :
    repairGo dmBad [1] 10 1 fuel (Gene.S 1) 5 [Gene.D 1, Gene.C 1] = none := by
  cases fuel with
  | zero => exact repairGo_zero dmBad [1] 10 1 (Gene.S 1) 5 [Gene.D 1, Gene.C 1]
  | succ n =>
    rw [repairGo_toStation dmBad [1] 10 1 (n + 1) (Gene.S 1) 5
      (Gene.D 1) (Gene.C 1) [] (Gene.S 1) (by omega)
      (by norm_num [chargeAtStop, dmBad, calculate_energy_to_next_stop,
        Gene.isStation, Gene.isDepot, Gene.isStop, min_def, max_def])
      (by norm_num [find_nearest_reachable_station_fast, findStationGo,
        chargeAtStop, dmBad, calculate_energy_to_next_stop,
        Gene.isStation, Gene.isDepot, Gene.isStop, min_def, max_def])]
    rw [show chargeAtStop dmBad 10 1 (Gene.S 1) 5 [Gene.D 1, Gene.C 1] -
        dmBad (Gene.S 1) (Gene.S 1) * 1 = 10 from by
      norm_num [chargeAtStop, dmBad, calculate_energy_to_next_stop,
        Gene.isStation, Gene.isDepot, Gene.isStop, min_def, max_def]]
    rw [show n + 1 - 1 = n from rfl, repairGo_dmBad_loops n]
    rfl

/-- The input on which `repair_chromosome` runs forever: chromosome
`[D1, C1]`, matrix `dmBad`, station set `{S1}`, capacity `10`,
consumption rate `1`.  No fuel bound suffices. -/
def repairDivergesOnDmBad : Prop :=
  ∀ fuel : Nat,
    repair_chromosome fuel [Gene.D 1, Gene.C 1] dmBad [1] 10 1 = none

/-- C1 (counterexample): `repair_chromosome` does **not** terminate for every
input.  On chromosome `[D1, C1]` with matrix `dmBad`, station set `{S1}`,
`battery_capacity = 10` and `consumption_rate = 1`, the hop `D1 → C1` is
unaffordable, `S1` is reachable from `D1`, and from `S1` the nearest
reachable station is `S1` itself at distance `0`, so the loop revisits `S1`
with an unchanged state forever: the fuel-indexed embedding returns `none`
for every fuel bound. -/
theorem repair_chromosome_c1_counterexample : repairDivergesOnDmBad := by
  intro fuel
  cases fuel with
  | zero =>
    simp [repair_chromosome, split_routes, splitGo, repairRoutes, repairGo_zero]
  | succ n =>
    simp only [repair_chromosome, split_routes, splitGo]
    norm_num
    rw [show ([[Gene.D 1, Gene.C 1]] : List (List Gene)) =
      [Gene.D 1 :: [Gene.C 1]] from rfl]
    simp only [repairRoutes]
    rw [repairGo_toStation dmBad [1] 10 1 (n + 1) (Gene.D 1) 10
      (Gene.D 1) (Gene.C 1) [] (Gene.S 1) (by omega)
      (by norm_num [chargeAtStop, dmBad, calculate_energy_to_next_stop,
        Gene.isStation, Gene.isDepot, Gene.isStop, min_def, max_def])
      (by norm_num [find_nearest_reachable_station_fast, findStationGo,
        chargeAtStop, dmBad, calculate_energy_to_next_stop,
        Gene.isStation, Gene.isDepot, Gene.isStop, min_def, max_def])]
    rw [show chargeAtStop dmBad 10 1 (Gene.D 1) 10 [Gene.D 1, Gene.C 1] -
        dmBad (Gene.D 1) (Gene.S 1) * 1 = 5 from by
      norm_num [chargeAtStop, dmBad, calculate_energy_to_next_stop,
        Gene.isStation, Gene.isDepot, Gene.isStop, min_def, max_def]]
    rw [show n + 1 - 1 = n from rfl, repairGo_dmBad_loops5 n]
    rfl

/-- C1 (amended): each iteration of the repair loop is total, and at a dead
end — the (possibly recharged) battery cannot afford the pending hop and no
charging station is reachable with it — the loop appends the original next
node anyway, zeroes the battery, and advances to that node, leaving the
infeasible hop in place.  (Universal termination fails; see the
counterexample.) -/
theorem repair_deadEnd_semantics (dm : Gene → Gene → ℚ) (sids : List Nat)
    (cap rate : ℚ) (fuel : Nat) (cur : Gene) (battery : ℚ)
    (x next : Gene) (rest : List Gene) (h : fuel ≠ 0)
    (hb : ¬ chargeAtStop dm cap rate cur battery (x :: next :: rest) ≥ dm cur next * rate)
    (hf : find_nearest_reachable_station_fast cur sids dm
      (chargeAtStop dm cap rate cur battery (x :: next :: rest)) rate = none) :
    repairGo dm sids cap rate fuel cur battery (x :: next :: rest) =
      (repairGo dm sids cap rate (fuel - 1) next 0 (next :: rest)).map (next :: ·) :=
  repairGo_deadEnd dm sids cap rate fuel cur battery x next rest h hb hf

/-- Witness for the amended C1 at a concrete dead end: on `dm2` the state
"`C1`, battery `40`, pending hop `C1 → D1` of cost `60`, station `S1` at
distance `50` unreachable" forces the hop with battery zeroed. -/
theorem repair_deadEnd_semantics_witness :
    (¬ chargeAtStop dm2 100 1 (Gene.C 1) 40 [Gene.C 1, Gene.D 1] ≥
        dm2 (Gene.C 1) (Gene.D 1) * 1) ∧
    find_nearest_reachable_station_fast (Gene.C 1) [1] dm2
        (chargeAtStop dm2 100 1 (Gene.C 1) 40 [Gene.C 1, Gene.D 1]) 1 = none ∧
    repairGo dm2 [1] 100 1 2 (Gene.C 1) 40 [Gene.C 1, Gene.D 1] =
      (repairGo dm2 [1] 100 1 1 (Gene.D 1) 0 [Gene.D 1]).map (Gene.D 1 :: ·) := by
  refine ⟨?_, ?_, ?_⟩
  · norm_num [chargeAtStop, dm2, calculate_energy_to_next_stop,
      Gene.isStation, Gene.isDepot, Gene.isStop, min_def, max_def]
  · norm_num [find_nearest_reachable_station_fast, findStationGo,
      chargeAtStop, dm2, calculate_energy_to_next_stop,
      Gene.isStation, Gene.isDepot, Gene.isStop, min_def, max_def]
  · exact repair_deadEnd_semantics dm2 [1] 100 1 2 (Gene.C 1) 40
      (Gene.C 1) (Gene.D 1) [] (by omega)
      (by norm_num [chargeAtStop, dm2, calculate_energy_to_next_stop,
        Gene.isStation, Gene.isDepot, Gene.isStop, min_def, max_def])
      (by norm_num [find_nearest_reachable_station_fast, findStationGo,
        chargeAtStop, dm2, calculate_energy_to_next_stop,
        Gene.isStation, Gene.isDepot, Gene.isStop, min_def, max_def])

/-! ### C2: the station-insertion scenario -/

/-- C2 (counterexample): in the spec's station-insertion scenario
(`[D1, C1, D1]`, `distance(D1,C1)=60`, capacity `100`, rate `1`, station
`S1` with `distance(D1,S1)=10`, `distance(S1,C1)=50`), repair does **not**
insert `S1`: the failing leg is `C1 → D1`, reached with battery `40`, from
where `S1` (distance `50`) is unreachable, so the dead-end rule leaves the
route unchanged; and the fitness of the result is exactly the infeasibility
sentinel, not a value strictly below it. -/
theorem repair_c2_counterexample :
    repair_chromosome 10 [Gene.D 1, Gene.C 1, Gene.D 1] dm2 [1] 100 1 =
      some [Gene.D 1, Gene.C 1, Gene.D 1] ∧
    Gene.S 1 ∉ [Gene.D 1, Gene.C 1, Gene.D 1] ∧
    fitness_function [Gene.D 1, Gene.C 1, Gene.D 1] M2 100 1 1 (3/5) (2/5) =
      some INFEASIBLE_PENALTY := by
  refine ⟨?_, by simp, ?_⟩
  · simp only [repair_chromosome, split_routes, splitGo, repairRoutes, popTrailingSep]
    norm_num [repairGo_nil, repairGo_single, repairGo_advance, repairGo_deadEnd,
      chargeAtStop, dm2, calculate_energy_to_next_stop,
      find_nearest_reachable_station_fast, findStationGo,
      Gene.isStation, Gene.isStop, Gene.isDepot, min_def, max_def]
  · simp only [fitness_function, split_routes, splitGo, evalRoutes, evalRoute,
      energyToNext, get_distance, M2]
    norm_num [dm2, Gene.isStation, Gene.isStop, Gene.isDepot]

/-- C2 (amended): in that scenario `repair_chromosome` returns the route
unchanged — `S1` is not reachable from `C1` with the remaining battery `40`,
so the dead-end rule applies — and for every weight pair the repaired route
evaluates to the infeasibility sentinel. -/
theorem repair_c2_amended (w1 w2 : ℚ) :
    repair_chromosome 10 [Gene.D 1, Gene.C 1, Gene.D 1] dm2 [1] 100 1 =
      some [Gene.D 1, Gene.C 1, Gene.D 1] ∧
    fitness_function [Gene.D 1, Gene.C 1, Gene.D 1] M2 100 1 1 w1 w2 =
      some INFEASIBLE_PENALTY := by
  constructor
  · simp only [repair_chromosome, split_routes, splitGo, repairRoutes, popTrailingSep]
    norm_num [repairGo_nil, repairGo_single, repairGo_advance, repairGo_deadEnd,
      chargeAtStop, dm2, calculate_energy_to_next_stop,
      find_nearest_reachable_station_fast, findStationGo,
      Gene.isStation, Gene.isStop, Gene.isDepot, min_def, max_def]
  · simp only [fitness_function, split_routes, splitGo, evalRoutes, evalRoute,
      energyToNext, get_distance, M2]
    norm_num [dm2, Gene.isStation, Gene.isStop, Gene.isDepot]

/-! ### C9: the feasible round-trip scenario -/

/-- C9: route `[D1, C1, D1]` with `distance(D1,C1)=2`, capacity `100`,
consumption rate `1` is returned unchanged by repair, and for every weight
pair its fitness is exactly `w_distance * (4/100)`: round-trip distance `4`,
zero charging time. -/
theorem repair_c9_roundtrip (w1 w2 : ℚ) :
    repair_chromosome 10 [Gene.D 1, Gene.C 1, Gene.D 1] dm9 [] 100 1 =
      some [Gene.D 1, Gene.C 1, Gene.D 1] ∧
    fitness_function [Gene.D 1, Gene.C 1, Gene.D 1] M9 100 1 1 w1 w2 =
      some (w1 * (4 / 100)) := by
  constructor
  · simp only [repair_chromosome, split_routes, splitGo, repairRoutes, popTrailingSep]
    norm_num [repairGo_nil, repairGo_single, repairGo_advance, repairGo_deadEnd,
      chargeAtStop, dm9, calculate_energy_to_next_stop,
      find_nearest_reachable_station_fast, findStationGo,
      Gene.isStation, Gene.isStop, Gene.isDepot, min_def, max_def]
  · simp only [fitness_function, split_routes, splitGo, evalRoutes, evalRoute,
      energyToNext, get_distance, M9]
    norm_num [dm9, Gene.isStation, Gene.isStop, Gene.isDepot]

/-! ### C6: zero / negative charging rate -/

/-- C6 (counterexample): on `[D1, S1, C1, D1]` over `dm6` (station top-up
required `50 > 0`), calling the evaluator with `charging_rate = 0` raises
(`none` in the embedding: Python float division by zero), and with
`charging_rate = -1` the charging contribution is `-50` — a negative charge
time, not zero — giving score `7/10` instead of the zero-charge-time
`9/10`. -/
theorem evaluator_c6_counterexample :
    fitness_function [Gene.D 1, Gene.S 1, Gene.C 1, Gene.D 1] M6 100 1 0
      (3/5) (2/5) = none ∧
    evalRoutes M6 100 (-1) 1
      (split_routes [Gene.D 1, Gene.S 1, Gene.C 1, Gene.D 1]) = .ok 150 (-50) ∧
    fitness_function [Gene.D 1, Gene.S 1, Gene.C 1, Gene.D 1] M6 100 1 (-1)
      (3/5) (2/5) = some (7/10) := by
  refine ⟨?_, ?_, ?_⟩
  · simp only [fitness_function, split_routes, splitGo, evalRoutes, evalRoute,
      energyToNext, get_distance, M6]
    norm_num [dm6, Gene.isStation, Gene.isStop, Gene.isDepot]
  · simp only [split_routes, splitGo, evalRoutes, evalRoute,
      energyToNext, get_distance, M6]
    norm_num [dm6, Gene.isStation, Gene.isStop, Gene.isDepot]
  · simp only [fitness_function, split_routes, splitGo, evalRoutes, evalRoute,
      energyToNext, get_distance, M6]
    norm_num [dm6, Gene.isStation, Gene.isStop, Gene.isDepot]

/-- C6 (amended): whenever the evaluator processes a hop whose current node
is a charging station (with a finite hop distance and a finite lookahead)
and `charging_rate = 0`, the division `required / charging_rate` raises:
the evaluation result is the error outcome, regardless of the battery and
of whether the required top-up is positive. -/
theorem evaluator_zero_crate_err (M : Gene → Gene → Option ℚ)
    (cap rate battery dist toNext : ℚ) (a b : Gene) (rest : List Gene)
    (hs : a.isStation = true) (hd : get_distance M a b = some dist)
    (hl : energyToNext M rate a (b :: rest) = some toNext) :
    evalRoute M cap 0 rate battery (a :: b :: rest) = .err := by
  simp only [evalRoute, hd, hs, hl]
  simp

/-- Witness for the amended C6: at `S1` with battery `40` over `dm6`
(required top-up `50 > 0`), a zero charging rate yields the error
outcome. -/
theorem evaluator_zero_crate_err_witness :
    (Gene.S 1).isStation = true ∧
    get_distance M6 (Gene.S 1) (Gene.C 1) = some 80 ∧
    energyToNext M6 1 (Gene.S 1) [Gene.C 1, Gene.D 1] = some 90 ∧
    evalRoute M6 100 0 1 40 [Gene.S 1, Gene.C 1, Gene.D 1] = .err := by
  refine ⟨rfl, ?_, ?_, ?_⟩
  · norm_num [get_distance, M6, dm6]
  · norm_num [energyToNext, get_distance, M6, dm6, Gene.isStop,
      Gene.isStation, Gene.isDepot]
  · exact evaluator_zero_crate_err M6 100 1 40 80 90 (Gene.S 1) (Gene.C 1)
      [Gene.D 1] rfl
      (by norm_num [get_distance, M6, dm6])
      (by norm_num [energyToNext, get_distance, M6, dm6, Gene.isStop,
        Gene.isStation, Gene.isDepot])

/-! ### C4: station charging logic of the evaluator -/

/-- The evaluator's clamp `battery += required; if battery > cap: battery =
cap` equals `min (battery + required) cap`. -/
theorem ite_gt_eq_min (x c : ℚ) : (if x > c then c else x) = min x c := by
  rcases le_total x c with h | h
  · rw [if_neg (not_lt.mpr h), min_eq_left h]
  · rw [min_eq_right h]
    split_ifs with h1
    · rfl
    · exact le_antisymm (not_lt.mp h1) h

/-- C4: on a hop whose current node `a` is a charging station (finite hop
distance, finite lookahead `toNext` as computed by `energyToNext`, nonzero
charging rate), the evaluator adds charge time `max 0 (toNext - battery) /
charging_rate`, updates the battery to `min (battery + required)
battery_capacity`, and proceeds; and on a hop whose current node is not a
station (customer or depot), no charging happens: the battery only pays the
hop's energy and no charging time is added. -/
theorem evaluator_station_charging (M : Gene → Gene → Option ℚ)
    (cap crate rate battery dist : ℚ) (a b : Gene) (rest : List Gene)
    (hd : get_distance M a b = some dist) (hc : crate ≠ 0) :
    (∀ toNext : ℚ, a.isStation = true →
      energyToNext M rate a (b :: rest) = some toNext →
      evalRoute M cap crate rate battery (a :: b :: rest) =
        (if min (battery + max 0 (toNext - battery)) cap < dist * rate then
          .infeasible
        else
          match evalRoute M cap crate rate
            (min (battery + max 0 (toNext - battery)) cap - dist * rate)
            (b :: rest) with
          | .ok d t => .ok (dist + d) (max 0 (toNext - battery) / crate + t)
          | x => x)) ∧
    (a.isStation = false →
      evalRoute M cap crate rate battery (a :: b :: rest) =
        (if battery < dist * rate then .infeasible
        else
          match evalRoute M cap crate rate (battery - dist * rate)
            (b :: rest) with
          | .ok d t => .ok (dist + d) t
          | x => x)) := by
  constructor
  · intro toNext hs hl
    simp only [evalRoute, hd, hs, hl, if_true, if_neg hc]
    rw [ite_gt_eq_min (battery + max 0 (toNext - battery)) cap]
  · intro hs
    simp only [evalRoute, hd, hs]
    simp

/-- Witness for C4 at a concrete station hop and a concrete customer hop
over `dm6` with battery `40`. -/
theorem evaluator_station_charging_witness :
    get_distance M6 (Gene.S 1) (Gene.C 1) = some 80 ∧ (1:ℚ) ≠ 0 ∧
    (Gene.S 1).isStation = true ∧
    energyToNext M6 1 (Gene.S 1) [Gene.C 1, Gene.D 1] = some 90 ∧
    evalRoute M6 100 1 1 40 [Gene.S 1, Gene.C 1, Gene.D 1] =
      (if min ((40:ℚ) + max 0 (90 - 40)) 100 < 80 * 1 then .infeasible
      else
        match evalRoute M6 100 1 1
          (min ((40:ℚ) + max 0 (90 - 40)) 100 - 80 * 1) [Gene.C 1, Gene.D 1] with
        | .ok d t => .ok (80 + d) (max 0 ((90:ℚ) - 40) / 1 + t)
        | x => x) := by
  refine ⟨?_, by norm_num, rfl, ?_, ?_⟩
  · norm_num [get_distance, M6, dm6]
  · norm_num [energyToNext, get_distance, M6, dm6, Gene.isStop,
      Gene.isStation, Gene.isDepot]
  · exact (evaluator_station_charging M6 100 1 1 40 80 (Gene.S 1) (Gene.C 1)
      [Gene.D 1]
      (by norm_num [get_distance, M6, dm6]) (by norm_num)).1 90 rfl
      (by norm_num [energyToNext, get_distance, M6, dm6, Gene.isStop,
        Gene.isStation, Gene.isDepot])

/-! ### C7: split / join round trip -/

/-- A chromosome whose separator markers are not doubled, leading, or
trailing. -/
def WellFormedChromosome (c : List Gene) : Prop :=
  List.Chain' (fun a b => ¬(a = Gene.sep ∧ b = Gene.sep)) c ∧
  c.head? ≠ some Gene.sep ∧ c.getLast? ≠ some Gene.sep

instance (c : List Gene) : Decidable (WellFormedChromosome c) := by
  unfold WellFormedChromosome
  infer_instance

theorem join_routes_cons (r : List Gene) (X : List (List Gene)) (hX : X ≠ []) :
    join_routes (r :: X) = r ++ Gene.sep :: join_routes X := by
  cases X with
  | nil => exact absurd rfl hX
  | cons y ys => rfl

/-- Both halves of the split/join induction: with a non-empty pending
segment `cur` the result of `splitGo` joins back to `cur ++ c`, and with an
empty pending segment and no leading separator it joins back to `c`. -/
theorem splitGo_join (c : List Gene)
    (hch : List.Chain' (fun a b => ¬(a = Gene.sep ∧ b = Gene.sep)) c)
    (hlast : c.getLast? ≠ some Gene.sep) :
    (∀ cur : List Gene, cur ≠ [] → join_routes (splitGo cur c) = cur ++ c) ∧
    (c.head? ≠ some Gene.sep → join_routes (splitGo [] c) = c) := by
  induction c with
  | nil =>
    constructor
    · intro cur hcur
      simp [splitGo, hcur, join_routes]
    · intro _
      simp [splitGo, join_routes]
  | cons g rest ih =>
    have hch' : List.Chain' (fun a b => ¬(a = Gene.sep ∧ b = Gene.sep)) rest :=
      hch.tail
    have hlast' : rest.getLast? ≠ some Gene.sep := by
      cases rest with
      | nil => simp
      | cons y ys =>
        rw [List.getLast?_cons_cons] at hlast
        exact hlast
    have IH := ih hch' hlast'
    have main : ∀ cur : List Gene, cur ≠ [] →
        join_routes (splitGo cur (g :: rest)) = cur ++ g :: rest := by
      intro cur hcur
      by_cases hg : g = Gene.sep
      · subst hg
        have hrest : rest ≠ [] := by
          intro h
          subst h
          simp at hlast
        obtain ⟨y, rest', rfl⟩ := List.exists_cons_of_ne_nil hrest
        have hy : y ≠ Gene.sep := by
          have := List.chain'_cons.mp hch
          intro h
          exact this.1 ⟨rfl, h⟩
        have hhead : (y :: rest').head? ≠ some Gene.sep := by
          simp [hy]
        have hXjoin : join_routes (splitGo [] (y :: rest')) = y :: rest' :=
          IH.2 hhead
        have hXne : splitGo [] (y :: rest') ≠ [] := by
          intro h
          rw [h] at hXjoin
          exact List.cons_ne_nil _ _ hXjoin.symm
        calc join_routes (splitGo cur (Gene.sep :: y :: rest'))
            = join_routes (cur :: splitGo [] (y :: rest')) := by
              simp [splitGo, hcur]
          _ = cur ++ Gene.sep :: join_routes (splitGo [] (y :: rest')) :=
              join_routes_cons _ _ hXne
          _ = cur ++ Gene.sep :: y :: rest' := by rw [hXjoin]
      · calc join_routes (splitGo cur (g :: rest))
            = join_routes (splitGo (cur ++ [g]) rest) := by
              simp [splitGo, hg]
          _ = (cur ++ [g]) ++ rest := IH.1 _ (by simp)
          _ = cur ++ g :: rest := by simp
    refine ⟨main, ?_⟩
    intro hhead
    have hg : g ≠ Gene.sep := by
      intro h
      exact hhead (by simp [h])
    calc join_routes (splitGo [] (g :: rest))
        = join_routes (splitGo [g] rest) := by simp [splitGo, hg]
      _ = [g] ++ rest := IH.1 [g] (by simp)
      _ = g :: rest := rfl

/-- C7: for every chromosome whose separators are not doubled, leading, or
trailing, `join_routes (split_routes c) = c`.  (Both functions are total on
all inputs by construction, mirroring the raise-free Python loops.) -/
theorem split_join_roundtrip (c : List Gene) (h : WellFormedChromosome c) :
    join_routes (split_routes c) = c :=
  (splitGo_join c h.1 h.2.2).2 h.2.1

/-- Witness for C7 on the concrete chromosome
`['D1','C1','C2','D1','|','D2','C3','D2']` of the repository's test
suite. -/
theorem split_join_roundtrip_witness :
    WellFormedChromosome
      [Gene.D 1, Gene.C 1, Gene.C 2, Gene.D 1, Gene.sep,
       Gene.D 2, Gene.C 3, Gene.D 2] ∧
    join_routes (split_routes
      [Gene.D 1, Gene.C 1, Gene.C 2, Gene.D 1, Gene.sep,
       Gene.D 2, Gene.C 3, Gene.D 2]) =
      [Gene.D 1, Gene.C 1, Gene.C 2, Gene.D 1, Gene.sep,
       Gene.D 2, Gene.C 3, Gene.D 2] := by
  have h : WellFormedChromosome
      [Gene.D 1, Gene.C 1, Gene.C 2, Gene.D 1, Gene.sep,
       Gene.D 2, Gene.C 3, Gene.D 2] := by
    refine ⟨?_, by simp, by simp⟩
    simp [List.chain'_cons]
  exact ⟨h, split_join_roundtrip _ h⟩

/-! ### C8: empty segments -/

/-- Every route produced by `splitGo` is non-empty: a segment is flushed
only under an `if cur:` guard. -/
theorem splitGo_ne_nil (c : List Gene) :
    ∀ cur r, r ∈ splitGo cur c → r ≠ [] := by
  induction c with
  | nil =>
    intro cur r hr
    by_cases hcur : cur = []
    · simp [splitGo, hcur] at hr
    · simp only [splitGo, if_neg hcur, List.mem_singleton] at hr
      subst hr
      exact hcur
  | cons g rest ih =>
    intro cur r hr
    by_cases hg : g = Gene.sep
    · by_cases hcur : cur = []
      · simp only [splitGo, if_pos hg, if_pos hcur] at hr
        exact ih [] r hr
      · simp only [splitGo, if_pos hg, if_neg hcur, List.mem_cons] at hr
        rcases hr with rfl | hr
        · exact hcur
        · exact ih [] r hr
    · simp only [splitGo, if_neg hg] at hr
      exact ih (cur ++ [g]) r hr

/-- C8 (counterexample): a chromosome with a leading separator (an empty
first segment) does **not** yield an empty route: `split_routes ['|','C1']`
is `[['C1']]` and contains no empty route. -/
theorem split_routes_c8_counterexample :
    split_routes [Gene.sep, Gene.C 1] = [[Gene.C 1]] ∧
    [] ∉ split_routes [Gene.sep, Gene.C 1] := by
  constructor
  · simp [split_routes, splitGo]
  · simp [split_routes, splitGo]

/-- C8 (amended): `split_routes` drops empty segments, so every route it
produces is non-empty; the consumers are nevertheless defensive: the repair
engine explicitly skips an empty route (`if not route: continue`), and the
evaluator's per-route loop performs no iteration on an empty route. -/
theorem split_routes_c8_amended :
    (∀ c : List Gene, ∀ r ∈ split_routes c, r ≠ []) ∧
    (∀ (dm : Gene → Gene → ℚ) (sids : List Nat) (cap rate : ℚ) (fuel : Nat)
      (rs : List (List Gene)),
      repairRoutes dm sids cap rate fuel ([] :: rs) =
        repairRoutes dm sids cap rate fuel rs) ∧
    (∀ (M : Gene → Gene → Option ℚ) (cap crate rate battery : ℚ),
      evalRoute M cap crate rate battery [] = .ok 0 0) := by
  refine ⟨fun c r hr => splitGo_ne_nil c [] r hr, fun _ _ _ _ _ _ => rfl,
    fun _ _ _ _ _ => rfl⟩

/-- Witness for the amended C8 at the concrete degenerate chromosome
`['|','C1','|','|']`. -/
theorem split_routes_c8_amended_witness :
    [Gene.C 1] ∈ split_routes [Gene.sep, Gene.C 1, Gene.sep, Gene.sep] ∧
    [Gene.C 1] ≠ ([] : List Gene) := by
  constructor
  · simp [split_routes, splitGo]
  · exact split_routes_c8_amended.1 [Gene.sep, Gene.C 1, Gene.sep, Gene.sep]
      [Gene.C 1] (by simp [split_routes, splitGo])

/-! ### C10: monotonicity of charging time in the charging rate -/

/-- Dividing the accumulated charging time by `r` (the shape of an
evaluation at charging rate `r` relative to rate `1`). -/
def scaleTime (r : ℚ) : FitRes → FitRes
  | .ok d t => .ok d (t / r)
  | x => x

/-- Evaluating a route at charging rate `r ≠ 0` yields the same outcome and
distance as at rate `1`, with the charging time divided by `r`: the battery
dynamics are independent of the charging rate. -/
theorem evalRoute_crate_scale (M : Gene → Gene → Option ℚ) (cap rate r : ℚ)
    (hr : r ≠ 0) :
    ∀ (s : List Gene) (battery : ℚ),
      evalRoute M cap r rate battery s =
        scaleTime r (evalRoute M cap 1 rate battery s) := by
  intro s
  induction s with
  | nil => intro battery; simp [evalRoute, scaleTime, zero_div]
  | cons a s ih =>
    intro battery
    cases s with
    | nil => simp [evalRoute, scaleTime, zero_div]
    | cons b rest =>
      cases hgd : get_distance M a b with
      | none => simp [evalRoute, hgd, scaleTime]
      | some dist =>
        cases hst : a.isStation with
        | false =>
          simp only [evalRoute, hgd, hst, Bool.false_eq_true, if_false]
          split_ifs with h1
          · rfl
          · rw [ih (battery - dist * rate)]
            cases evalRoute M cap 1 rate (battery - dist * rate) (b :: rest) with
            | err => rfl
            | infeasible => rfl
            | ok d t => rfl
        | true =>
          cases hl : energyToNext M rate a (b :: rest) with
          | none => simp [evalRoute, hgd, hst, hl, scaleTime]
          | some toNext =>
            simp only [evalRoute, hgd, hst, hl, if_true, if_neg hr,
              if_neg one_ne_zero]
            set B := (if battery + max 0 (toNext - battery) > cap then cap
              else battery + max 0 (toNext - battery)) with hB
            by_cases h1 : B < dist * rate
            · rw [if_pos h1, if_pos h1]
              rfl
            · rw [if_neg h1, if_neg h1]
              rw [ih (B - dist * rate)]
              cases evalRoute M cap 1 rate (B - dist * rate) (b :: rest) with
              | err => rfl
              | infeasible => rfl
              | ok d t =>
                simp only [scaleTime]
                rw [div_one, add_div]

/-- The charging time accumulated at rate `1` is non-negative. -/
theorem evalRoute_time_nonneg (M : Gene → Gene → Option ℚ) (cap rate : ℚ) :
    ∀ (s : List Gene) (battery d t : ℚ),
      evalRoute M cap 1 rate battery s = .ok d t → 0 ≤ t := by
  intro s
  induction s with
  | nil =>
    intro battery d t h
    simp only [evalRoute, FitRes.ok.injEq] at h
    exact h.2.le
  | cons a s ih =>
    intro battery d t h
    cases s with
    | nil =>
      simp only [evalRoute, FitRes.ok.injEq] at h
      exact h.2.le
    | cons b rest =>
      cases hgd : get_distance M a b with
      | none =>
        simp only [evalRoute, hgd] at h
        exact absurd h (by simp)
      | some dist =>
        cases hst : a.isStation with
        | false =>
          simp only [evalRoute, hgd, hst, Bool.false_eq_true, if_false] at h
          by_cases h1 : battery < dist * rate
          · rw [if_pos h1] at h
            exact absurd h (by simp)
          · rw [if_neg h1] at h
            cases he : evalRoute M cap 1 rate (battery - dist * rate)
                (b :: rest) with
            | err => rw [he] at h; exact absurd h (by simp)
            | infeasible => rw [he] at h; exact absurd h (by simp)
            | ok d2 t2 =>
              rw [he] at h
              simp only [FitRes.ok.injEq] at h
              rw [← h.2]
              exact ih _ _ _ he
        | true =>
          cases hl : energyToNext M rate a (b :: rest) with
          | none =>
            simp only [evalRoute, hgd, hst, hl, if_true] at h
            exact absurd h (by simp)
          | some toNext =>
            simp only [evalRoute, hgd, hst, hl, if_true,
              if_neg one_ne_zero, div_one] at h
            set B := (if battery + max 0 (toNext - battery) > cap then cap
              else battery + max 0 (toNext - battery)) with hB
            by_cases h1 : B < dist * rate
            · rw [if_pos h1] at h
              exact absurd h (by simp)
            · rw [if_neg h1] at h
              cases he : evalRoute M cap 1 rate (B - dist * rate)
                  (b :: rest) with
              | err => rw [he] at h; exact absurd h (by simp)
              | infeasible => rw [he] at h; exact absurd h (by simp)
              | ok d2 t2 =>
                rw [he] at h
                simp only [FitRes.ok.injEq] at h
                rw [← h.2]
                have ht2 := ih _ _ _ he
                have hreq : (0:ℚ) ≤ max 0 (toNext - battery) := le_max_left _ _
                linarith

/-- Route-list version of `evalRoute_crate_scale`. -/
theorem evalRoutes_crate_scale (M : Gene → Gene → Option ℚ) (cap rate r : ℚ)
    (hr : r ≠ 0) :
    ∀ rs : List (List Gene),
      evalRoutes M cap r rate rs = scaleTime r (evalRoutes M cap 1 rate rs) := by
  intro rs
  induction rs with
  | nil => simp [evalRoutes, scaleTime, zero_div]
  | cons q qs ih =>
    simp only [evalRoutes]
    rw [evalRoute_crate_scale M cap rate r hr q cap, ih]
    cases evalRoute M cap 1 rate cap q with
    | err => rfl
    | infeasible => rfl
    | ok d t =>
      cases evalRoutes M cap 1 rate qs with
      | err => rfl
      | infeasible => rfl
      | ok d2 t2 =>
        simp only [scaleTime]
        rw [add_div]

/-- Route-list version of `evalRoute_time_nonneg`. -/
theorem evalRoutes_time_nonneg (M : Gene → Gene → Option ℚ) (cap rate : ℚ) :
    ∀ (rs : List (List Gene)) (d t : ℚ),
      evalRoutes M cap 1 rate rs = .ok d t → 0 ≤ t := by
  intro rs
  induction rs with
  | nil =>
    intro d t h
    simp only [evalRoutes, FitRes.ok.injEq] at h
    rw [← h.2]
  | cons q qs ih =>
    intro d t h
    simp only [evalRoutes] at h
    cases he : evalRoute M cap 1 rate cap q with
    | err => rw [he] at h; exact absurd h (by simp)
    | infeasible => rw [he] at h; exact absurd h (by simp)
    | ok d1 t1 =>
      rw [he] at h
      cases hes : evalRoutes M cap 1 rate qs with
      | err => rw [hes] at h; exact absurd h (by simp)
      | infeasible => rw [hes] at h; exact absurd h (by simp)
      | ok d2 t2 =>
        rw [hes] at h
        simp only [FitRes.ok.injEq] at h
        rw [← h.2]
        have := evalRoute_time_nonneg M cap rate q cap d1 t1 he
        have := ih d2 t2 hes
        linarith

/-- C10: for a fixed chromosome and matrix on which the evaluator completes
(no sentinel), increasing the charging rate never increases the accumulated
total charging time. -/
theorem evaluator_charging_monotone (M : Gene → Gene → Option ℚ)
    (cap rate r1 r2 : ℚ) (c : List Gene) (d1 t1 d2 t2 : ℚ)
    (h1 : 0 < r1) (h12 : r1 ≤ r2)
    (e1 : evalRoutes M cap r1 rate (split_routes c) = .ok d1 t1)
    (e2 : evalRoutes M cap r2 rate (split_routes c) = .ok d2 t2) :
    t2 ≤ t1 := by
  have h2 : 0 < r2 := lt_of_lt_of_le h1 h12
  have s1 := evalRoutes_crate_scale M cap rate r1 h1.ne' (split_routes c)
  have s2 := evalRoutes_crate_scale M cap rate r2 h2.ne' (split_routes c)
  rw [e1] at s1
  rw [e2] at s2
  cases hb : evalRoutes M cap 1 rate (split_routes c) with
  | err => rw [hb] at s1; exact absurd s1 (by simp [scaleTime])
  | infeasible => rw [hb] at s1; exact absurd s1 (by simp [scaleTime])
  | ok d t =>
    rw [hb] at s1 s2
    simp only [scaleTime, FitRes.ok.injEq] at s1 s2
    have ht : 0 ≤ t := evalRoutes_time_nonneg M cap rate (split_routes c) d t hb
    rw [s1.2, s2.2]
    exact div_le_div_of_nonneg_left ht h1 h12

/-- Witness for C10: on `[D1, S1, C1, D1]` over `dm6`, doubling the
charging rate from `1` to `2` halves the total charging time (`50` to `25`)
with the same total distance `150`. -/
theorem evaluator_charging_monotone_witness :
    (0:ℚ) < 1 ∧ (1:ℚ) ≤ 2 ∧
    evalRoutes M6 100 1 1
      (split_routes [Gene.D 1, Gene.S 1, Gene.C 1, Gene.D 1]) = .ok 150 50 ∧
    evalRoutes M6 100 2 1
      (split_routes [Gene.D 1, Gene.S 1, Gene.C 1, Gene.D 1]) = .ok 150 25 ∧
    (25:ℚ) ≤ 50 := by
  have e1 : evalRoutes M6 100 1 1
      (split_routes [Gene.D 1, Gene.S 1, Gene.C 1, Gene.D 1]) = .ok 150 50 := by
    simp only [split_routes, splitGo, evalRoutes, evalRoute,
      energyToNext, get_distance, M6]
    norm_num [dm6, Gene.isStation, Gene.isStop, Gene.isDepot]
  have e2 : evalRoutes M6 100 2 1
      (split_routes [Gene.D 1, Gene.S 1, Gene.C 1, Gene.D 1]) = .ok 150 25 := by
    simp only [split_routes, splitGo, evalRoutes, evalRoute,
      energyToNext, get_distance, M6]
    norm_num [dm6, Gene.isStation, Gene.isStop, Gene.isDepot]
  exact ⟨by norm_num, by norm_num, e1, e2,
    evaluator_charging_monotone M6 100 1 1 2
      [Gene.D 1, Gene.S 1, Gene.C 1, Gene.D 1] 150 50 150 25
      (by norm_num) (by norm_num) e1 e2⟩

/-! ### C5: exact characterization of the sentinel return -/

/-- Spec-side description of the claim's two failure situations on one
route, written from the claim's wording for comparison with the
source-derived `evalRoute`: walking the route in order, a hop fails when
its looked-up distance is the unreachable sentinel (either the hop's own
distance or one inside the station lookahead), or when the battery — after
any station charging, described by the claim as
`min (battery + max 0 (toNext - battery)) capacity` — is strictly below the
hop's energy requirement. -/
def routeBadSpec (M : Gene → Gene → Option ℚ) (cap rate : ℚ) :
    ℚ → List Gene → Bool
  | _, [] => false
  | _, [_] => false
  | battery, a :: b :: rest =>
    match get_distance M a b with
    | none => true
    | some dist =>
      match (if a.isStation then energyToNext M rate a (b :: rest)
             else some 0) with
      | none => true
      | some toNext =>
        let battery1 := if a.isStation then
            min (battery + max 0 (toNext - battery)) cap
          else battery
        if battery1 < dist * rate then true
        else routeBadSpec M cap rate (battery1 - dist * rate) (b :: rest)

/-- Spec-side description of the claim's failure condition on a whole
chromosome: some route of the chromosome fails (each route starts with a
full battery, so the routes are independent). -/
def chromBadSpec (M : Gene → Gene → Option ℚ) (cap rate : ℚ)
    (c : List Gene) : Bool :=
  (split_routes c).any fun r => routeBadSpec M cap rate cap r

/-- With a nonzero charging rate the evaluator's route loop never raises,
and it returns the early infeasible outcome exactly when the spec-side
failure predicate holds. -/
theorem evalRoute_spec (M : Gene → Gene → Option ℚ) (cap crate rate : ℚ)
    (hc : crate ≠ 0) :
    ∀ (s : List Gene) (battery : ℚ),
      evalRoute M cap crate rate battery s ≠ .err ∧
      (evalRoute M cap crate rate battery s = .infeasible ↔
        routeBadSpec M cap rate battery s = true) := by
  intro s
  induction s with
  | nil =>
    intro battery
    constructor
    · simp [evalRoute]
    · simp [evalRoute, routeBadSpec]
  | cons a s ih =>
    intro battery
    cases s with
    | nil =>
      constructor
      · simp [evalRoute]
      · simp [evalRoute, routeBadSpec]
    | cons b rest =>
      cases hgd : get_distance M a b with
      | none =>
        constructor
        · simp [evalRoute, hgd]
        · simp [evalRoute, routeBadSpec, hgd]
      | some dist =>
        cases hst : a.isStation with
        | false =>
          simp only [evalRoute, routeBadSpec, hgd, hst,
            Bool.false_eq_true, if_false]
          by_cases h1 : battery < dist * rate
          · rw [if_pos h1, if_pos h1]
            exact ⟨by simp, by simp⟩
          · rw [if_neg h1, if_neg h1]
            obtain ⟨hne, hiff⟩ := ih (battery - dist * rate)
            cases he : evalRoute M cap crate rate (battery - dist * rate)
                (b :: rest) with
            | err => exact absurd he hne
            | infeasible =>
              constructor
              · simp
              · rw [← hiff, he]
            | ok d t =>
              constructor
              · simp
              · rw [← hiff, he]
                simp
        | true =>
          cases hl : energyToNext M rate a (b :: rest) with
          | none =>
            constructor
            · simp [evalRoute, hgd, hst, hl]
            · simp [evalRoute, routeBadSpec, hgd, hst, hl]
          | some toNext =>
            simp only [evalRoute, routeBadSpec, hgd, hst, hl, if_true,
              if_neg hc]
            rw [ite_gt_eq_min (battery + max 0 (toNext - battery)) cap]
            by_cases h1 : min (battery + max 0 (toNext - battery)) cap <
                dist * rate
            · rw [if_pos h1, if_pos h1]
              exact ⟨by simp, by simp⟩
            · rw [if_neg h1, if_neg h1]
              obtain ⟨hne, hiff⟩ := ih
                (min (battery + max 0 (toNext - battery)) cap - dist * rate)
              cases he : evalRoute M cap crate rate
                  (min (battery + max 0 (toNext - battery)) cap - dist * rate)
                  (b :: rest) with
              | err => exact absurd he hne
              | infeasible =>
                constructor
                · simp
                · rw [← hiff, he]
              | ok d t =>
                constructor
                · simp
                · rw [← hiff, he]
                  simp

/-- Route-list version of `evalRoute_spec`. -/
theorem evalRoutes_spec (M : Gene → Gene → Option ℚ) (cap crate rate : ℚ)
    (hc : crate ≠ 0) :
    ∀ rs : List (List Gene),
      evalRoutes M cap crate rate rs ≠ .err ∧
      (evalRoutes M cap crate rate rs = .infeasible ↔
        (rs.any fun r => routeBadSpec M cap rate cap r) = true) ∧
      ((rs.any fun r => routeBadSpec M cap rate cap r) = false →
        ∃ d t, evalRoutes M cap crate rate rs = .ok d t) := by
  intro rs
  induction rs with
  | nil =>
    refine ⟨by simp [evalRoutes], by simp [evalRoutes], fun _ => ⟨0, 0, rfl⟩⟩
  | cons q qs ih =>
    obtain ⟨hqne, hqiff⟩ := evalRoute_spec M cap crate rate hc q cap
    obtain ⟨hne, hiff, hok⟩ := ih
    cases he : evalRoute M cap crate rate cap q with
    | err => exact absurd he hqne
    | infeasible =>
      have hbad : routeBadSpec M cap rate cap q = true := hqiff.mp he
      refine ⟨?_, ?_, ?_⟩
      · simp [evalRoutes, he]
      · simp [evalRoutes, he, hbad]
      · intro h
        simp [hbad] at h
    | ok d t =>
      have hgood : routeBadSpec M cap rate cap q = false := by
        cases hq : routeBadSpec M cap rate cap q
        · rfl
        · exact absurd (hqiff.mpr hq) (by simp [he])
      cases hes : evalRoutes M cap crate rate qs with
      | err => exact absurd hes hne
      | infeasible =>
        refine ⟨?_, ?_, ?_⟩
        · simp [evalRoutes, he, hes]
        · simp [evalRoutes, he, hes, hgood, hiff.mp hes]
        · intro h
          simp only [List.any_cons, Bool.or_eq_false_iff] at h
          exact absurd (hiff.mp hes) (by simp [h.2])
      | ok d2 t2 =>
        refine ⟨?_, ?_, ?_⟩
        · simp [evalRoutes, he, hes]
        · constructor
          · intro h
            simp [evalRoutes, he, hes] at h
          · intro h
            simp only [List.any_cons, hgood, Bool.false_or] at h
            exact absurd (hiff.mpr h) (by simp [hes])
        · intro _
          exact ⟨d + d2, t + t2, by simp [evalRoutes, he, hes]⟩

/-- C5: with a nonzero charging rate, a missing pair of distinct nodes
resolves to the unreachable sentinel (never to zero); the evaluator returns
the infeasibility sentinel for the whole chromosome exactly when some hop
of some route fails (unreachable distance, or battery below the hop's
requirement after any station charging); and otherwise it returns the
weighted accumulated score. -/
theorem evaluator_sentinel_c5 (M : Gene → Gene → Option ℚ)
    (cap rate crate w1 w2 : ℚ) (c : List Gene) (hc : crate ≠ 0) :
    (∀ a b : Gene, a ≠ b → M a b = none → M b a = none →
      get_distance M a b = none) ∧
    (chromBadSpec M cap rate c = true →
      fitness_function c M cap rate crate w1 w2 = some INFEASIBLE_PENALTY) ∧
    (chromBadSpec M cap rate c = false →
      ∃ d t, evalRoutes M cap crate rate (split_routes c) = .ok d t ∧
        fitness_function c M cap rate crate w1 w2 =
          some (w1 * (d / 100) + w2 * (t / 100))) := by
  obtain ⟨hne, hiff, hok⟩ := evalRoutes_spec M cap crate rate hc (split_routes c)
  refine ⟨?_, ?_, ?_⟩
  · intro a b hab h1 h2
    simp [get_distance, hab, h1, h2]
  · intro h
    have : evalRoutes M cap crate rate (split_routes c) = .infeasible :=
      hiff.mpr h
    simp [fitness_function, this]
  · intro h
    obtain ⟨d, t, hdt⟩ := hok h
    exact ⟨d, t, hdt, by simp [fitness_function, hdt]⟩

/-- Witness for C5: on `[D1, C1, D1]` over `dm2` (the second leg fails with
battery `40 < 60`), the spec-side predicate holds and the evaluator returns
the sentinel. -/
theorem evaluator_sentinel_c5_witness :
    chromBadSpec M2 100 1 [Gene.D 1, Gene.C 1, Gene.D 1] = true ∧
    fitness_function [Gene.D 1, Gene.C 1, Gene.D 1] M2 100 1 1 (3/5) (2/5) =
      some INFEASIBLE_PENALTY := by
  have hroute : routeBadSpec M2 100 1 100 [Gene.D 1, Gene.C 1, Gene.D 1] = true := by
    simp only [routeBadSpec, energyToNext, get_distance, M2]
    norm_num [dm2, Gene.isStation, Gene.isStop, Gene.isDepot, min_def, max_def]
  have hbad : chromBadSpec M2 100 1 [Gene.D 1, Gene.C 1, Gene.D 1] = true := by
    simp only [chromBadSpec, split_routes, splitGo, List.any_cons,
      List.any_nil, Bool.or_false]
    norm_num
    exact ⟨[Gene.D 1, Gene.C 1, Gene.D 1], ⟨by simp, rfl⟩, hroute⟩
  exact ⟨hbad,
    (evaluator_sentinel_c5 M2 100 1 1 (3/5) (2/5)
      [Gene.D 1, Gene.C 1, Gene.D 1] (by norm_num)).2.1 hbad⟩

/-! ### C3: repair preserves customers and stop order -/

theorem findStationGo_station (cur : Gene) (dm : Gene → Gene → ℚ)
    (battery rate : ℚ) :
    ∀ (l : List Nat) (best : Option (Gene × ℚ)),
      (∀ p : Gene × ℚ, best = some p → p.1.isStation = true) →
      ∀ p : Gene × ℚ,
        findStationGo cur dm battery rate l best = some p →
        p.1.isStation = true := by
  intro l
  induction l with
  | nil =>
    intro best hbest p hp
    exact hbest p hp
  | cons s rest ih =>
    intro best hbest p hp
    cases best with
    | none =>
      simp only [findStationGo] at hp
      refine ih _ ?_ p hp
      intro q hq
      split_ifs at hq with h1
      · simp only [Option.some.injEq] at hq
        rw [← hq]
        simp [Gene.isStation]
    | some b =>
      obtain ⟨bs, bd⟩ := b
      simp only [findStationGo] at hp
      refine ih _ ?_ p hp
      intro q hq
      split_ifs at hq with h1 h2 <;> simp only [Option.some.injEq] at hq
      · rw [← hq]
        simp [Gene.isStation]
      · rw [← hq]
        exact hbest (bs, bd) rfl
      · rw [← hq]
        exact hbest (bs, bd) rfl

/-- A station returned by `find_nearest_reachable_station_fast` is a
station gene. -/
theorem find_nearest_isStation (cur : Gene) (sids : List Nat)
    (dm : Gene → Gene → ℚ) (battery rate : ℚ) (st : Gene)
    (h : find_nearest_reachable_station_fast cur sids dm battery rate = some st) :
    st.isStation = true := by
  simp only [find_nearest_reachable_station_fast] at h
  rcases Option.map_eq_some'.mp h with ⟨p, hp, rfl⟩
  exact findStationGo_station cur dm battery rate sids none (by simp) p hp

theorem customersOf_append (l1 l2 : List Gene) :
    customersOf (l1 ++ l2) = customersOf l1 ++ customersOf l2 :=
  List.filterMap_append l1 l2 Gene.customerId

theorem Gene.customerId_of_station (a : Gene) (h : a.isStation = true) :
    a.customerId = none := by
  cases a <;> simp_all [Gene.isStation, Gene.customerId]

/-- Erasing stations does not change the customers of a gene list. -/
theorem customersOf_filter_station (l : List Gene) :
    customersOf (l.filter fun g => !g.isStation) = customersOf l := by
  induction l with
  | nil => rfl
  | cons a l ih =>
    cases ha : a.isStation with
    | false =>
      simp only [List.filter_cons, ha, Bool.not_false, if_true, customersOf,
        List.filterMap_cons]
      cases a.customerId with
      | none => exact ih
      | some i =>
        simp only [customersOf] at ih
        rw [ih]
    | true =>
      simp only [List.filter_cons, ha, Bool.not_true, Bool.false_eq_true,
        if_false, customersOf, List.filterMap_cons,
        Gene.customerId_of_station a ha]
      exact ih

/-- The route-loop invariant: when the repair loop returns, the appended
body contains the remaining original stops as a sublist, and erasing
station genes from the body recovers exactly the remaining original stops
with their own stations erased. -/
theorem repairGo_preserves (dm : Gene → Gene → ℚ) (sids : List Nat)
    (cap rate : ℚ) :
    ∀ (fuel : Nat) (cur : Gene) (battery : ℚ) (s : List Gene)
      (body : List Gene),
      repairGo dm sids cap rate fuel cur battery s = some body →
      s.tail.Sublist body ∧
      body.filter (fun g => !g.isStation) =
        s.tail.filter (fun g => !g.isStation) := by
  intro fuel
  induction fuel with
  | zero =>
    intro cur battery s body h
    rw [repairGo_zero] at h
    exact absurd h (by simp)
  | succ n ih =>
    intro cur battery s body h
    have h0 : n + 1 ≠ 0 := Nat.succ_ne_zero n
    match s with
    | [] =>
      rw [repairGo_nil dm sids cap rate (n+1) cur battery h0] at h
      simp only [Option.some.injEq] at h
      rw [← h]
      exact ⟨List.nil_sublist _, rfl⟩
    | [x] =>
      rw [repairGo_single dm sids cap rate (n+1) cur battery x h0] at h
      simp only [Option.some.injEq] at h
      rw [← h]
      exact ⟨List.nil_sublist _, rfl⟩
    | x :: next :: rest =>
      by_cases hb : chargeAtStop dm cap rate cur battery (x :: next :: rest) ≥
          dm cur next * rate
      · rw [repairGo_advance dm sids cap rate (n+1) cur battery x next rest
          h0 hb, show n + 1 - 1 = n from rfl] at h
        rcases Option.map_eq_some'.mp h with ⟨body', hgo, rfl⟩
        obtain ⟨hsub, hfil⟩ := ih next _ (next :: rest) body' hgo
        simp only [List.tail_cons] at hsub hfil ⊢
        constructor
        · exact List.Sublist.cons₂ next hsub
        · rw [List.filter_cons, List.filter_cons, hfil]
      · cases hf : find_nearest_reachable_station_fast cur sids dm
            (chargeAtStop dm cap rate cur battery (x :: next :: rest)) rate with
        | some st =>
          rw [repairGo_toStation dm sids cap rate (n+1) cur battery x next rest
            st h0 hb hf, show n + 1 - 1 = n from rfl] at h
          rcases Option.map_eq_some'.mp h with ⟨body', hgo, rfl⟩
          obtain ⟨hsub, hfil⟩ := ih st _ (x :: next :: rest) body' hgo
          simp only [List.tail_cons] at hsub hfil ⊢
          constructor
          · exact List.Sublist.cons st hsub
          · rw [List.filter_cons]
            simp only [find_nearest_isStation cur sids dm _ rate st hf,
              Bool.not_true, Bool.false_eq_true, if_false]
            exact hfil
        | none =>
          rw [repairGo_deadEnd dm sids cap rate (n+1) cur battery x next rest
            h0 hb hf, show n + 1 - 1 = n from rfl] at h
          rcases Option.map_eq_some'.mp h with ⟨body', hgo, rfl⟩
          obtain ⟨hsub, hfil⟩ := ih next _ (next :: rest) body' hgo
          simp only [List.tail_cons] at hsub hfil ⊢
          constructor
          · exact List.Sublist.cons₂ next hsub
          · rw [List.filter_cons, List.filter_cons, hfil]

/-- Per-route version: repaired routes pair up with the parsed routes, the
original route being a sublist of the repaired one and both having the same
station-erased stops. -/
theorem repairRoutes_forall (dm : Gene → Gene → ℚ) (sids : List Nat)
    (cap rate : ℚ) (fuel : Nat) :
    ∀ (rs nrs : List (List Gene)), (∀ r ∈ rs, r ≠ []) →
      repairRoutes dm sids cap rate fuel rs = some nrs →
      List.Forall₂ (fun r nr => r.Sublist nr ∧
        nr.filter (fun g => !g.isStation) = r.filter (fun g => !g.isStation))
        rs nrs := by
  intro rs
  induction rs with
  | nil =>
    intro nrs _ h
    simp only [repairRoutes, Option.some.injEq] at h
    rw [← h]
    exact List.Forall₂.nil
  | cons r rs' ih =>
    intro nrs hne h
    match r, hne r (List.mem_cons_self r rs') with
    | x :: suf, _ =>
      simp only [repairRoutes] at h
      cases hgo : repairGo dm sids cap rate fuel x cap (x :: suf) with
      | none => rw [hgo] at h; exact absurd h (by simp)
      | some body =>
        rw [hgo] at h
        cases hrr : repairRoutes dm sids cap rate fuel rs' with
        | none => rw [hrr] at h; exact absurd h (by simp)
        | some others =>
          rw [hrr] at h
          simp only [Option.some.injEq] at h
          rw [← h]
          obtain ⟨hsub, hfil⟩ := repairGo_preserves dm sids cap rate fuel x cap
            (x :: suf) body hgo
          simp only [List.tail_cons] at hsub hfil
          refine List.Forall₂.cons ⟨List.Sublist.cons₂ x hsub, ?_⟩
            (ih others (fun q hq => hne q (List.mem_cons_of_mem (x :: suf) hq)) hrr)
          rw [List.filter_cons, List.filter_cons, hfil]

theorem customersOf_splitGo_flatten (c : List Gene) :
    ∀ cur : List Gene,
      customersOf ((splitGo cur c).flatten) = customersOf cur ++ customersOf c := by
  induction c with
  | nil =>
    intro cur
    by_cases hcur : cur = []
    · simp [splitGo, hcur, customersOf]
    · simp [splitGo, hcur, customersOf]
  | cons g rest ih =>
    intro cur
    by_cases hg : g = Gene.sep
    · subst hg
      by_cases hcur : cur = []
      · rw [show splitGo cur (Gene.sep :: rest) = splitGo [] rest from by
          simp [splitGo, hcur], ih []]
        simp [hcur, customersOf, Gene.customerId]
      · rw [show splitGo cur (Gene.sep :: rest) = cur :: splitGo [] rest from by
          simp [splitGo, hcur]]
        rw [List.flatten_cons, customersOf_append, ih []]
        simp [customersOf, Gene.customerId, List.filterMap_cons]
    · rw [show splitGo cur (g :: rest) = splitGo (cur ++ [g]) rest from by
        simp [splitGo, hg], ih (cur ++ [g]), customersOf_append]
      simp only [customersOf, List.filterMap_cons]
      cases g.customerId with
      | none => simp
      | some i => simp

/-- Appending one separator after each route adds no customers. -/
theorem customersOf_map_sep_flatten (nrs : List (List Gene)) :
    customersOf ((nrs.map (· ++ [Gene.sep])).flatten) =
      customersOf nrs.flatten := by
  induction nrs with
  | nil => rfl
  | cons r nrs ih =>
    simp only [List.map_cons, List.flatten_cons, customersOf_append, ih]
    simp [customersOf, Gene.customerId, List.filterMap_cons]

theorem customersOf_popTrailingSep (l : List Gene) :
    customersOf (popTrailingSep l) = customersOf l := by
  unfold popTrailingSep
  by_cases h : l.getLast? = some Gene.sep
  · rw [if_pos h]
    have hne : l ≠ [] := by
      intro h'
      rw [h'] at h
      simp at h
    have hlast : l.getLast hne = Gene.sep := by
      rw [List.getLast?_eq_getLast l hne] at h
      simpa using h
    conv_rhs => rw [← List.dropLast_append_getLast hne]
    rw [customersOf_append, hlast]
    simp [customersOf, Gene.customerId, List.filterMap_cons]
  · rw [if_neg h]

/-- Customers are identical along the `Forall₂` pairing. -/
theorem customersOf_flatten_forall (rs nrs : List (List Gene))
    (h : List.Forall₂ (fun r nr => r.Sublist nr ∧
      nr.filter (fun g => !g.isStation) = r.filter (fun g => !g.isStation))
      rs nrs) :
    customersOf nrs.flatten = customersOf rs.flatten := by
  induction h with
  | nil => rfl
  | cons hrel _ ih =>
    rw [List.flatten_cons, List.flatten_cons, customersOf_append,
      customersOf_append, ih, ← customersOf_filter_station, hrel.2,
      customersOf_filter_station]

/-- C3: whenever `repair_chromosome` returns, the multiset of customer
identifiers of the output equals that of the input, and route by route the
original route is a sublist of the repaired route (repair only inserts
nodes, never reorders or drops), while erasing all station genes from the
repaired route yields the original route with its station genes erased. -/
theorem repair_preserves_customers (fuel : Nat) (c : List Gene)
    (dm : Gene → Gene → ℚ) (sids : List Nat) (cap rate : ℚ)
    (out : List Gene)
    (h : repair_chromosome fuel c dm sids cap rate = some out) :
    (customersOf out : Multiset ℕ) = (customersOf c : Multiset ℕ) ∧
    ∃ nrs, repairRoutes dm sids cap rate fuel (split_routes c) = some nrs ∧
      out = popTrailingSep ((nrs.map (· ++ [Gene.sep])).flatten) ∧
      List.Forall₂ (fun r nr => r.Sublist nr ∧
        nr.filter (fun g => !g.isStation) = r.filter (fun g => !g.isStation))
        (split_routes c) nrs := by
  simp only [repair_chromosome] at h
  cases hrr : repairRoutes dm sids cap rate fuel (split_routes c) with
  | none => rw [hrr] at h; exact absurd h (by simp)
  | some nrs =>
    rw [hrr] at h
    simp only [Option.some.injEq] at h
    have hfa := repairRoutes_forall dm sids cap rate fuel (split_routes c) nrs
      (fun r hr => splitGo_ne_nil c [] r hr) hrr
    have hlist : customersOf out = customersOf c := by
      rw [← h, customersOf_popTrailingSep, customersOf_map_sep_flatten,
        customersOf_flatten_forall (split_routes c) nrs hfa]
      have := customersOf_splitGo_flatten c []
      simp only [customersOf, List.filterMap_nil, List.nil_append] at this
      exact this
    exact ⟨by rw [hlist], nrs, rfl, h.symm, hfa⟩

/-- Witness for C3 on a repair run that returns: the feasible scenario of
C9-style data over `dm2`. -/
theorem repair_preserves_customers_witness :
    repair_chromosome 10 [Gene.D 1, Gene.C 1, Gene.D 1] dm2 [1] 100 1 =
      some [Gene.D 1, Gene.C 1, Gene.D 1] ∧
    (customersOf [Gene.D 1, Gene.C 1, Gene.D 1] : Multiset ℕ) =
      (customersOf [Gene.D 1, Gene.C 1, Gene.D 1] : Multiset ℕ) := by
  have hrep : repair_chromosome 10 [Gene.D 1, Gene.C 1, Gene.D 1] dm2 [1]
      100 1 = some [Gene.D 1, Gene.C 1, Gene.D 1] := by
    simp only [repair_chromosome, split_routes, splitGo, repairRoutes,
      popTrailingSep]
    norm_num [repairGo_nil, repairGo_single, repairGo_advance, repairGo_deadEnd,
      chargeAtStop, dm2, calculate_energy_to_next_stop,
      find_nearest_reachable_station_fast, findStationGo,
      Gene.isStation, Gene.isStop, Gene.isDepot, min_def, max_def]
  exact ⟨hrep,
    (repair_preserves_customers 10 [Gene.D 1, Gene.C 1, Gene.D 1] dm2 [1]
      100 1 [Gene.D 1, Gene.C 1, Gene.D 1] hrep).1⟩

end RSPKLU
